import Mathlib

/-!
Verification of the socketeer repository: a Go service that relays MongoDB
change-stream events to websocket subscribers.

The embedding below follows the source files:
* internal/ws/ws.go — the subscriber registry (`clients` map guarded by
  `clientsMux`), `DispatchUpdate`, `Stop`, `websocketHandler`,
  `handleConnection`;
* internal/db/db.go — `Connect`, `Listen` (change-feed loop, classification,
  field projection, dispatch) and `Disconnect`;
* socketeer.go — `Socketeer.Stop` with its deferred self-call.

Connections are identified by their handle; we use `Nat`. Whether a
`WriteMessage` to a given connection succeeds is an input of the model
(`writeOk`), since it depends on the peer.
-/

set_option autoImplicit false

namespace Socketeer

/-- A websocket connection handle (`*websocket.Conn`); identity is the
handle itself, so a bare identifier suffices. -/
abbrev Conn := Nat

/-- The write loop body of `WebSocket.DispatchUpdate` (ws.go lines 107-113):
iterate over the clients in map-iteration order, `WriteMessage` the update to
each; on the first write error, log it and `return`, so clients later in the
iteration order are not written to.  Returns the list of successful
deliveries as (connection, payload) pairs, in order. -/
def writeMessages (writeOk : Conn → Bool) (update : String) : List Conn → List (Conn × String)
  | [] => []
  | c :: rest =>
    if writeOk c then (c, update) :: writeMessages writeOk update rest
    else []

/-- Embedding of `WebSocket.DispatchUpdate` (ws.go lines 103-114).  The
method locks `clientsMux` for the whole loop, runs the write loop, and never
mutates the `clients` map — neither on success nor on a write error.  Result:
(successful deliveries, clients map after the call). -/
def DispatchUpdate (writeOk : Conn → Bool) (update : String) (clients : List Conn) :
    List (Conn × String) × List Conn :=
  (writeMessages writeOk update clients, clients)

/-- Embedding of `WebSocket.Stop` (ws.go lines 79-88): under `clientsMux`,
`Close` every client in the map, then replace the map by a fresh empty map.
Result: (connections closed, clients map after the call). -/
def WSStop (clients : List Conn) : List Conn × List Conn :=
  (clients, [])

section LockTraces

/-- An observable event of a registry operation, for reasoning about which
calls happen inside the `clientsMux` critical section. -/
inductive LockEv where
  | lock
  | unlock
  | mutateClients
  | netWrite (c : Conn)
  | netClose (c : Conn)
  deriving DecidableEq, Repr

/-- The sequence of write attempts made by `DispatchUpdate`'s loop: every
client up to and including the first failing one is written to; after a
failure the method returns. -/
def attemptedWrites (writeOk : Conn → Bool) : List Conn → List LockEv
  | [] => []
  | c :: rest =>
    LockEv.netWrite c :: (if writeOk c then attemptedWrites writeOk rest else [])

/-- Event trace of `WebSocket.DispatchUpdate`: `clientsMux.Lock()`, the write
loop (all network writes), `defer`red `Unlock` on return. -/
def dispatchTrace (writeOk : Conn → Bool) (clients : List Conn) : List LockEv :=
  LockEv.lock :: (attemptedWrites writeOk clients ++ [LockEv.unlock])

/-- Event trace of the registration step of `websocketHandler` (ws.go lines
144-146): `Lock`, insert into `clients`, `Unlock`. -/
def addTrace : List LockEv :=
  [LockEv.lock, LockEv.mutateClients, LockEv.unlock]

/-- Event trace of the removal path of `handleConnection`'s deferred cleanup
(ws.go lines 165-171): `Lock`, delete from `clients`, `Unlock`, then
`conn.Close()` outside the critical section. -/
def removeTrace (c : Conn) : List LockEv :=
  [LockEv.lock, LockEv.mutateClients, LockEv.unlock, LockEv.netClose c]

/-- Event trace of `WebSocket.Stop` (ws.go lines 79-88): `Lock`, `Close`
every client, replace the map, deferred `Unlock`. -/
def stopTrace (clients : List Conn) : List LockEv :=
  LockEv.lock :: (clients.map LockEv.netClose ++ [LockEv.mutateClients, LockEv.unlock])

/-- Does some network call (`WriteMessage` or `Close`) occur while the lock
is held?  The boolean argument is whether the lock is currently held. -/
def ioUnderLock : Bool → List LockEv → Bool
  | _, [] => false
  | _, LockEv.lock :: tr => ioUnderLock true tr
  | _, LockEv.unlock :: tr => ioUnderLock false tr
  | held, LockEv.mutateClients :: tr => ioUnderLock held tr
  | held, LockEv.netWrite _ :: tr => held || ioUnderLock held tr
  | held, LockEv.netClose _ :: tr => held || ioUnderLock held tr

end LockTraces

section Projection

/-- A BSON scalar value as it appears in a decoded change record
(`bson.M` values).  Only the shapes the projection ever formats are needed:
`fmt.Sprintf` with the `v` verb turns a string into itself, an integer into
its decimal text, a boolean into `true`/`false`. -/
inductive BVal where
  | str (s : String)
  | int (n : Int)
  | bool (b : Bool)
  deriving DecidableEq, Repr

/-- `fmt.Sprintf` with verb `v` on a scalar value (db.go lines 287 and 303). -/
def goFormat : BVal → String
  | BVal.str s => s
  | BVal.int n => toString n
  | BVal.bool b => if b then "true" else "false"

/-- A BSON document / Go map modelled as an association list; Go map keys are
unique, which theorems assume via `Nodup` on the key list where needed. -/
abbrev BDoc := List (String × BVal)

/-- Go map lookup `m[k]` on an association list (first matching key). -/
def lookupKey {α : Type} : List (String × α) → String → Option α
  | [], _ => none
  | (k', v) :: rest, k => if k' = k then some v else lookupKey rest k

/-- Go map assignment `m[k] = v` on an association list: replace the first
entry with key `k`, or append a fresh entry. -/
def setKey {α : Type} : List (String × α) → String → α → List (String × α)
  | [], k, v => [(k, v)]
  | (k', v') :: rest, k, v =>
    if k' = k then (k', v) :: rest else (k', v') :: setKey rest k v

/-- The inner `for _, k := range keys` loop of `DB.Listen`'s projection
(db.go lines 285-289 for updates, 301-305 for inserts): when the document key
equals a configured key, store the `Sprintf`ed value in `responseMap` under
the document key. -/
def keysLoop (key : String) (v : BVal) :
    List String → List (String × String) → List (String × String)
  | [], acc => acc
  | k :: ks, acc =>
    keysLoop key v ks (if key = k then setKey acc key (goFormat v) else acc)

/-- The outer `for key, value := range src` loop of `DB.Listen`'s projection
(db.go lines 284-290 and 300-306), `src` being the update's `UpdatedFields`
delta or the insert's `FullDocument`. -/
def fieldsLoop (keys : List String) :
    BDoc → List (String × String) → List (String × String)
  | [], acc => acc
  | (key, v) :: rest, acc => fieldsLoop keys rest (keysLoop key v keys acc)

/-- The full projection of a source map through the configured field list:
the `responseMap` built by `DB.Listen` before `json.Marshal`. -/
def projectFields (src : BDoc) (keys : List String) : List (String × String) :=
  fieldsLoop keys src []

end Projection

section Feed

/-- A change record successfully decoded from the change stream (the `temp`
`bson.D` of `DB.Listen`), with its `operationType` discriminator and the two
payload shapes `Listen` unmarshals it into. -/
structure Record where
  operationType : String
  fullDocument : BDoc
  updatedFields : BDoc
  deriving DecidableEq, Repr

/-- One record's classification-and-projection step of `DB.Listen` (db.go
lines 259-313): the classification loop scans `temp` for `operationType`; an
`update` record is unmarshalled into `UpdateEvent` and projected from its
delta, an `insert` record into `CreateEvent` and projected from its full
document, and in either case the serialized map is passed to
`ws.DispatchUpdate`.  Any other operation type matches neither branch:
`none`, no dispatch. -/
def processRecord (keys : List String) (r : Record) : Option (List (String × String)) :=
  if r.operationType = "update" then some (projectFields r.updatedFields keys)
  else if r.operationType = "insert" then some (projectFields r.fullDocument keys)
  else none

/-- One pull from the change stream inside `Listen`'s loop: either
`changeStream.Decode` succeeds, yielding a record, or it fails with an
error.  The feed ending (`Next` returning false) is the end of the input
list. -/
inductive PullResult where
  | record (r : Record)
  | decodeFail (e : String)
  deriving DecidableEq, Repr

/-- How `DB.Listen`'s loop ends: `finished` when the stream is exhausted and
the function returns `nil`; `fatal e` when a `Decode` error makes it log the
error fatally and return it (db.go lines 253-257). -/
inductive ListenOutcome where
  | finished
  | fatal (e : String)
  deriving DecidableEq, Repr

/-- Embedding of `DB.Listen`'s pull loop (db.go lines 249-314) over a feed of
pull results: each decoded record is classified and projected, projected
payloads are dispatched in order; a decode failure stops the loop at once
with a fatal outcome and no further record is processed.  Returns the
dispatched payloads in order and the outcome. -/
def Listen (keys : List String) :
    List PullResult → List (List (String × String)) × ListenOutcome
  | [] => ([], ListenOutcome.finished)
  | PullResult.decodeFail e :: _ => ([], ListenOutcome.fatal e)
  | PullResult.record r :: rest =>
    match processRecord keys r with
    | some payload =>
      let next := Listen keys rest
      (payload :: next.1, next.2)
    | none => Listen keys rest

end Feed

section Lifecycle

/-- `os.Getenv`: the process environment as an association list; an unset
variable reads as the empty string. -/
def osGetenv (env : List (String × String)) (name : String) : String :=
  (lookupKey env name).getD ""

/-- The handle `db.Connect` builds on success: the database and collection
names the `mongo.Client` is pointed at. -/
structure DBHandle where
  dbName : String
  collName : String
  deriving DecidableEq, Repr

/-- Embedding of `db.Connect` (db.go lines 202-224): if `mongo.Connect` or
the `Ping` fails the error is returned; otherwise the handle stores
`client.Database(dbName)` and
`client.Database(dbName).Collection(os.Getenv(collName))` — the collection
name is read from the environment variable named by `collName`, not from
`collName` itself. -/
def Connect (env : List (String × String)) (connectOk pingOk : Bool)
    (dbName collName : String) : Option DBHandle :=
  if connectOk = false then none
  else if pingOk = false then none
  else some ⟨dbName, osGetenv env collName⟩

/-- Embedding of `Socketeer.Stop` (socketeer.go lines 155-165) with an
explicit bound on the depth of nested calls.  The body discards the result
of `s.DB.Disconnect()` (`disconnectOk` is ignored by the code), runs
`s.WS.Stop()`, and `return nil` fires the deferred closure, which calls
`s.Stop()` again before printing; so a call completes only if the nested
call completes.  `none` means the call did not complete within `fuel` nested
invocations. -/
def SocketeerStop (disconnectOk : Bool) (wsClients : List Conn) :
    Nat → Option Unit
  | 0 => none
  | fuel + 1 =>
    match SocketeerStop disconnectOk (WSStop wsClients).2 fuel with
    | some u => some u
    | none => none

end Lifecycle

/-! ## Helper lemmas about the dispatch write loop -/

theorem writeMessages_all_ok (writeOk : Conn → Bool) (u : String) :
    ∀ clients : List Conn, (∀ x ∈ clients, writeOk x = true) →
      writeMessages writeOk u clients = clients.map (fun x => (x, u)) := by
  intro clients
  induction clients with
  | nil => intro _; rfl
  | cons a as ih =>
    intro h
    have ha : writeOk a = true := h a (List.mem_cons_self a as)
    simp only [writeMessages, ha, if_true, List.map_cons, List.cons.injEq, true_and]
    exact ih (fun x hx => h x (List.mem_cons_of_mem a hx))

theorem writeMessages_stops (writeOk : Conn → Bool) (u : String) (c : Conn)
    (post : List Conn) (hc : writeOk c = false) :
    ∀ pre : List Conn, (∀ x ∈ pre, writeOk x = true) →
      writeMessages writeOk u (pre ++ c :: post) = pre.map (fun x => (x, u)) := by
  intro pre
  induction pre with
  | nil => intro _; simp [writeMessages, hc]
  | cons a as ih =>
    intro h
    have ha : writeOk a = true := h a (List.mem_cons_self a as)
    simp only [List.cons_append, writeMessages, ha, if_true, List.map_cons,
      List.cons.injEq, true_and]
    exact ih (fun x hx => h x (List.mem_cons_of_mem a hx))

/-! ## Helper lemmas about association-list maps and the projection loops -/

theorem lookupKey_setKey_self {α : Type} (k : String) (v : α) :
    ∀ m : List (String × α), lookupKey (setKey m k v) k = some v := by
  intro m
  induction m with
  | nil => simp [setKey, lookupKey]
  | cons p rest ih =>
    obtain ⟨k1, v1⟩ := p
    by_cases h : k1 = k
    · simp [setKey, h, lookupKey]
    · simp [setKey, h, lookupKey, ih]

theorem lookupKey_setKey_ne {α : Type} (k k2 : String) (v : α) (hne : k2 ≠ k) :
    ∀ m : List (String × α), lookupKey (setKey m k v) k2 = lookupKey m k2 := by
  intro m
  induction m with
  | nil => simp [setKey, lookupKey, Ne.symm hne]
  | cons p rest ih =>
    obtain ⟨k1, v1⟩ := p
    by_cases h : k1 = k
    · subst h
      simp [setKey, lookupKey, Ne.symm hne]
    · simp [setKey, h, lookupKey, ih]

theorem lookupKey_eq_none_of_not_mem {α : Type} (k : String) :
    ∀ m : List (String × α), k ∉ m.map Prod.fst → lookupKey m k = none := by
  intro m
  induction m with
  | nil => intro _; rfl
  | cons p rest ih =>
    obtain ⟨k1, v1⟩ := p
    intro h
    simp only [List.map_cons, List.mem_cons] at h
    push_neg at h
    simp [lookupKey, Ne.symm h.1, ih h.2]

theorem lookupKey_keysLoop (key : String) (v : BVal) :
    ∀ (ks : List String) (acc : List (String × String)) (k : String),
      lookupKey (keysLoop key v ks acc) k =
        if key ∈ ks ∧ k = key then some (goFormat v) else lookupKey acc k := by
  intro ks
  induction ks with
  | nil => intro acc k; simp [keysLoop]
  | cons k0 ks ih =>
    intro acc k
    simp only [keysLoop]
    rw [ih]
    by_cases h3 : key = k0
    · subst h3
      by_cases h2 : k = key
      · simp [h2, lookupKey_setKey_self]
      · simp [h2, lookupKey_setKey_ne key k (goFormat v) h2]
    · simp [h3, List.mem_cons]

theorem lookupKey_fieldsLoop (keys : List String) :
    ∀ (src : BDoc) (acc : List (String × String)) (k : String),
      (src.map Prod.fst).Nodup →
      lookupKey (fieldsLoop keys src acc) k =
        match lookupKey src k with
        | some v => if k ∈ keys then some (goFormat v) else lookupKey acc k
        | none => lookupKey acc k := by
  intro src
  induction src with
  | nil => intro acc k _; simp [fieldsLoop, lookupKey]
  | cons p rest ih =>
    obtain ⟨key, v⟩ := p
    intro acc k hnd
    simp only [List.map_cons, List.nodup_cons] at hnd
    obtain ⟨hkey, hrest⟩ := hnd
    simp only [fieldsLoop]
    rw [ih (keysLoop key v keys acc) k hrest]
    by_cases hk : key = k
    · subst hk
      have hnone : lookupKey rest key = none :=
        lookupKey_eq_none_of_not_mem key rest hkey
      simp [hnone, lookupKey, lookupKey_keysLoop]
    · cases hrk : lookupKey rest k with
      | some v1 =>
        simp [lookupKey, hk, hrk, lookupKey_keysLoop, Ne.symm hk]
      | none =>
        simp [lookupKey, hk, hrk, lookupKey_keysLoop, Ne.symm hk]

/-- The per-key content of the projected response map: a key is present
exactly when it is a key of the source map and a configured field, and it is
then bound to the Sprintf form of the source value. -/
theorem lookupKey_projectFields (src : BDoc) (keys : List String) (k : String)
    (hnd : (src.map Prod.fst).Nodup) :
    lookupKey (projectFields src keys) k =
      (lookupKey src k).bind
        (fun v => if k ∈ keys then some (goFormat v) else none) := by
  have h := lookupKey_fieldsLoop keys src [] k hnd
  rw [projectFields, h]
  cases hsrc : lookupKey src k with
  | some v => simp [lookupKey]
  | none => simp [lookupKey]

/-! ## Claims about the subscriber registry and dispatch -/

/-- Claim C1 counterexample: with the registry holding connections 1 and 2,
iterated in the order [1, 2], and the write to connection 1 failing, it is
not the case that delivery still proceeds to connection 2 and that the
failed connection 1 is absent from the registry afterwards: `DispatchUpdate`
returns early, delivering nothing, and leaves connection 1 registered, so
the next dispatch's snapshot still contains it. -/
theorem dispatch_write_failure_cex :
    ¬ ((((2 : Conn), "u") ∈ (DispatchUpdate (fun c => c != 1) "u" [1, 2]).1) ∧
       ((1 : Conn) ∉ (DispatchUpdate (fun c => c != 1) "u" [1, 2]).2)) := by
  decide

/-- Claim C1 (amended): when the write to subscriber `c` fails during a
dispatch, `DispatchUpdate` logs and returns at once: exactly the subscribers
before `c` in iteration order receive the payload, the subscribers after `c`
receive nothing, and no subscriber is removed — the registry, and hence the
snapshot of the next dispatch, is unchanged and still contains `c`. -/
theorem dispatch_stops_at_first_failure (writeOk : Conn → Bool) (u : String)
    (pre post : List Conn) (c : Conn)
    (hpre : ∀ x ∈ pre, writeOk x = true) (hc : writeOk c = false) :
    (DispatchUpdate writeOk u (pre ++ c :: post)).1 = pre.map (fun x => (x, u)) ∧
    (DispatchUpdate writeOk u (pre ++ c :: post)).2 = pre ++ c :: post ∧
    c ∈ (DispatchUpdate writeOk u (pre ++ c :: post)).2 :=
  ⟨writeMessages_stops writeOk u c post hc pre hpre, rfl,
    List.mem_append_right pre (List.mem_cons_self c post)⟩

/-- Claim C1 (amended) witness: registry [2, 1, 3], write to 1 fails — only
2 is delivered to, and 1 stays registered. -/
theorem dispatch_stops_at_first_failure_witness :
    (DispatchUpdate (fun c => c != 1) "u" [2, 1, 3]).1 = [(2, "u")] ∧
    (DispatchUpdate (fun c => c != 1) "u" [2, 1, 3]).2 = [2, 1, 3] ∧
    (1 : Conn) ∈ (DispatchUpdate (fun c => c != 1) "u" [2, 1, 3]).2 := by
  have h := dispatch_stops_at_first_failure (fun c => c != 1) "u" [2] [3] 1
    (by decide) (by decide)
  simpa using h

/-- Claim C2: when every registered subscriber's write succeeds, dispatching
one payload delivers exactly that payload to each of the `N` registered
subscribers exactly once — no subscriber is skipped, none receives it twice,
and nothing is delivered to a connection outside the registry. -/
theorem dispatch_exactly_once (writeOk : Conn → Bool) (u : String)
    (clients : List Conn) (hnd : clients.Nodup)
    (hok : ∀ x ∈ clients, writeOk x = true) :
    (∀ c ∈ clients, ((DispatchUpdate writeOk u clients).1).count (c, u) = 1) ∧
    (∀ p ∈ (DispatchUpdate writeOk u clients).1, p.1 ∈ clients ∧ p.2 = u) := by
  have hw : (DispatchUpdate writeOk u clients).1 = clients.map (fun x => (x, u)) :=
    writeMessages_all_ok writeOk u clients hok
  constructor
  · intro c hc
    rw [hw]
    have hcm : ∀ l : List Conn,
        List.count (c, u) (l.map (fun x => (x, u))) = List.count c l := by
      intro l
      induction l with
      | nil => rfl
      | cons a as ih => simp [List.count_cons, ih, beq_iff_eq, Prod.ext_iff]
    rw [hcm clients]
    exact List.count_eq_one_of_mem hnd hc
  · intro p hp
    rw [hw] at hp
    simp only [List.mem_map] at hp
    obtain ⟨x, hx, rfl⟩ := hp
    exact ⟨hx, rfl⟩

/-- Claim C2 witness: registry [5, 7], all writes succeed — subscriber 5
receives the payload exactly once. -/
theorem dispatch_exactly_once_witness :
    ((DispatchUpdate (fun _ => true) "m" [5, 7]).1).count ((5 : Conn), "m") = 1 :=
  (dispatch_exactly_once (fun _ => true) "m" [5, 7] (by decide) (by decide)).1
    5 (by decide)

/-- Claim C3 counterexample: dispatching to a registry holding connection 1
performs a network write (`WriteMessage`) while `clientsMux` is held — the
lock is not released before the network I/O, refuting the claim that the
critical section never includes a network call. -/
theorem lock_io_cex :
    ioUnderLock false (dispatchTrace (fun _ => true) [1]) = true := rfl

/-- Claim C3 (amended): registration and removal hold `clientsMux` only for
the structural change to the `clients` map (the removal's `Close` happens
after unlock), but whenever the registry is nonempty, `DispatchUpdate` holds
the lock across its `WriteMessage` network writes and `Stop` holds it across
its `Close` calls. -/
theorem lock_discipline (c cl : Conn) (writeOk : Conn → Bool)
    (clients : List Conn) :
    ioUnderLock false addTrace = false ∧
    ioUnderLock false (removeTrace c) = false ∧
    ioUnderLock false (dispatchTrace writeOk (cl :: clients)) = true ∧
    ioUnderLock false (stopTrace (cl :: clients)) = true := by
  refine ⟨rfl, rfl, ?_, ?_⟩
  · simp [dispatchTrace, attemptedWrites, ioUnderLock]
  · simp [stopTrace, ioUnderLock]

/-- Claim C8: after `WebSocket.Stop` completes, the registry's active set is
empty, every previously registered connection has been closed, and a dispatch
on the post-stop registry delivers to no one. -/
theorem stop_clears_registry (clients : List Conn) (writeOk : Conn → Bool)
    (u : String) :
    (WSStop clients).2 = [] ∧
    (WSStop clients).1 = clients ∧
    (DispatchUpdate writeOk u (WSStop clients).2).1 = [] :=
  ⟨rfl, rfl, rfl⟩

/-! ## Claims about the event projection and the feed loop -/

/-- Claim C4: for every update change record, the projected payload contains
exactly the keys that appear both in the update's changed-fields delta and in
the configured field list, each bound to the Sprintf-stringified delta value;
per-key: the payload binds `k` to `goFormat v` precisely when the delta binds
`k` to `v` and `k` is a configured field, and binds nothing otherwise. -/
theorem update_projection (fd delta : BDoc) (keys : List String)
    (hnd : (delta.map Prod.fst).Nodup) :
    processRecord keys (Record.mk "update" fd delta) =
      some (projectFields delta keys) ∧
    ∀ k, lookupKey (projectFields delta keys) k =
      (lookupKey delta k).bind
        (fun v => if k ∈ keys then some (goFormat v) else none) := by
  refine ⟨rfl, ?_⟩
  intro k
  exact lookupKey_projectFields delta keys k hnd

/-- Claim C4 witness: the delta {email: "new@y.com"} with configured fields
[name, email] projects to a payload holding exactly email = "new@y.com",
with name absent. -/
theorem update_projection_witness :
    processRecord ["name", "email"]
        (Record.mk "update" [] [("email", BVal.str "new@y.com")]) =
      some (projectFields [("email", BVal.str "new@y.com")] ["name", "email"]) ∧
    lookupKey (projectFields [("email", BVal.str "new@y.com")] ["name", "email"])
        "email" = some "new@y.com" ∧
    lookupKey (projectFields [("email", BVal.str "new@y.com")] ["name", "email"])
        "name" = none := by
  have h := update_projection [] [("email", BVal.str "new@y.com")]
    ["name", "email"] (by decide)
  refine ⟨h.1, ?_, ?_⟩
  · rw [h.2 "email"]
    rfl
  · rw [h.2 "name"]
    rfl

/-- Claim C5: for every insert change record, the projected payload contains
exactly the keys that appear both in the full document and in the configured
field list, each bound to the Sprintf-stringified document value; per-key:
the payload binds `k` to `goFormat v` precisely when the document binds `k`
to `v` and `k` is a configured field, and binds nothing otherwise. -/
theorem insert_projection (doc delta : BDoc) (keys : List String)
    (hnd : (doc.map Prod.fst).Nodup) :
    processRecord keys (Record.mk "insert" doc delta) =
      some (projectFields doc keys) ∧
    ∀ k, lookupKey (projectFields doc keys) k =
      (lookupKey doc k).bind
        (fun v => if k ∈ keys then some (goFormat v) else none) := by
  refine ⟨rfl, ?_⟩
  intro k
  exact lookupKey_projectFields doc keys k hnd

/-- Claim C5 witness: the document {name: "John Doe", email: "x@y.com",
age: 30} with configured fields [name, email] projects to a payload holding
exactly name = "John Doe" and email = "x@y.com", with age absent. -/
theorem insert_projection_witness :
    processRecord ["name", "email"]
        (Record.mk "insert"
          [("name", BVal.str "John Doe"), ("email", BVal.str "x@y.com"),
            ("age", BVal.int 30)] []) =
      some (projectFields
        [("name", BVal.str "John Doe"), ("email", BVal.str "x@y.com"),
          ("age", BVal.int 30)] ["name", "email"]) ∧
    lookupKey (projectFields
        [("name", BVal.str "John Doe"), ("email", BVal.str "x@y.com"),
          ("age", BVal.int 30)] ["name", "email"]) "name" = some "John Doe" ∧
    lookupKey (projectFields
        [("name", BVal.str "John Doe"), ("email", BVal.str "x@y.com"),
          ("age", BVal.int 30)] ["name", "email"]) "email" = some "x@y.com" ∧
    lookupKey (projectFields
        [("name", BVal.str "John Doe"), ("email", BVal.str "x@y.com"),
          ("age", BVal.int 30)] ["name", "email"]) "age" = none := by
  have h := insert_projection
    [("name", BVal.str "John Doe"), ("email", BVal.str "x@y.com"),
      ("age", BVal.int 30)] [] ["name", "email"] (by decide)
  refine ⟨h.1, ?_, ?_, ?_⟩
  · rw [h.2 "name"]
    rfl
  · rw [h.2 "email"]
    rfl
  · rw [h.2 "age"]
    rfl

/-- Claim C6: a change record whose operation type is neither "insert" nor
"update" produces no projected event — `processRecord` yields none, nothing
is dispatched, no error is raised, and the feed loop continues with the next
pull exactly as if the record were absent. -/
theorem other_ops_ignored (keys : List String) (r : Record)
    (rest : List PullResult)
    (h1 : r.operationType ≠ "insert") (h2 : r.operationType ≠ "update") :
    processRecord keys r = none ∧
    Listen keys (PullResult.record r :: rest) = Listen keys rest := by
  have hp : processRecord keys r = none := by
    simp [processRecord, h1, h2]
  exact ⟨hp, by simp [Listen, hp]⟩

/-- Claim C6 witness: a "delete" record is ignored and the loop continues. -/
theorem other_ops_ignored_witness :
    processRecord ["a"] (Record.mk "delete" [] []) = none ∧
    Listen ["a"] [PullResult.record (Record.mk "delete" [] [])] =
      Listen ["a"] [] :=
  other_ops_ignored ["a"] (Record.mk "delete" [] []) [] (by decide) (by decide)

/-- Claim C7: when a pull from the change feed fails to decode, the feed
loop halts there: the records before the failure are processed and their
payloads dispatched as usual, the failing record is not silently skipped,
nothing after it is processed, and the loop's outcome is the fatal decode
error. -/
theorem decode_failure_fatal (keys : List String) (e : String)
    (rest : List PullResult) :
    ∀ pre : List Record,
      Listen keys (pre.map PullResult.record ++ PullResult.decodeFail e :: rest) =
        ((Listen keys (pre.map PullResult.record)).1, ListenOutcome.fatal e) := by
  intro pre
  induction pre with
  | nil => rfl
  | cons r rs ih =>
    cases hp : processRecord keys r with
    | some payload => simp [Listen, hp, ih]
    | none => simp [Listen, hp, ih]

/-! ## Claims about connection bootstrap and shutdown -/

/-- Claim C9: `Connect` stores `os.Getenv(collName)` as the collection name,
not `collName` itself; when no environment variable named `collName` is set,
the stored collection name is the empty string. -/
theorem connect_collection_from_env (env : List (String × String))
    (dbn colln : String) :
    Connect env true true dbn colln = some ⟨dbn, osGetenv env colln⟩ ∧
    (lookupKey env colln = none → osGetenv env colln = "") := by
  refine ⟨rfl, ?_⟩
  intro h
  simp [osGetenv, h]

/-- Claim C9 witness: with an environment that has no variable named
"users", connecting with collection argument "users" stores the empty
string. -/
theorem connect_collection_from_env_witness :
    Connect [("OTHER", "x")] true true "mydb" "users" = some ⟨"mydb", ""⟩ ∧
    osGetenv [("OTHER", "x")] "users" = "" := by
  have h := connect_collection_from_env [("OTHER", "x")] "mydb" "users"
  have he : osGetenv [("OTHER", "x")] "users" = "" := h.2 (by decide)
  exact ⟨by rw [h.1, he], he⟩

/-- Claim C10: `Socketeer.Stop` never terminates normally — its deferred
closure re-invokes `Stop` unconditionally, so for every call depth bound the
nest of calls fails to complete, regardless of the disconnect result and of
the websocket shutdown performed first. -/
theorem socketeer_stop_never_completes (disconnectOk : Bool)
    (wsClients : List Conn) :
    ∀ fuel : Nat, SocketeerStop disconnectOk wsClients fuel = none := by
  intro fuel
  induction fuel generalizing wsClients with
  | zero => rfl
  | succ n ih => simp [SocketeerStop, ih]

end Socketeer
